import Mathlib

/-!
Verification of the analysis core of `pyTimeGrapher.py` (class `WatchAnalyzer`).

Shallow embedding conventions:
* Python floats are modelled as exact rationals (`ℚ`); NumPy `int16` samples as `ℤ`;
  sample counters as `ℕ`; `last_trigger_index` as `ℤ` (its sentinel is `-999999`).
* The band-pass filter / envelope pipeline (source lines 118-122) is float DSP whose
  output the detector scans; the detector is modelled as a function of the smoothed
  envelope it receives, and the lockout / ordering claims quantify over every envelope.
* The two result-queue payload kinds that matter to the claims (`TICK`, `LOG`, `STATS`,
  `RESET`) are modelled as an inductive event type; `WAVEFORM` frames are display-only
  snapshots whose emission depends on live queue depth and are not modelled.
-/

namespace PyTimeGrapher

/-- Source line 14: `LOCKOUT_MS = 80`. -/
def LOCKOUT_MS : ℕ := 80

/-- Source line 15: `LOCKOUT_SAMPLES = int(44100 * (LOCKOUT_MS / 1000.0))` = 3528. -/
def LOCKOUT_SAMPLES : ℕ := 44100 * LOCKOUT_MS / 1000

/-- Source line 17: the standard BPH list, in ascending order. -/
def STANDARD_BPH : List ℚ := [3600, 7200, 14400, 18000, 19800, 21600, 25200, 28800, 36000]

/-- Source line 18. -/
def SAMPLE_RATE : ℕ := 44100

/-- Source line 19. -/
def CHUNK_SIZE : ℕ := 2048

/-- Source line 32: `self.target_peak = 20000.0`. -/
def target_peak : ℚ := 20000

/-- Classification labels of source lines 143-145. -/
inductive TickStatus
  | OK
  | NOISE
  | MISSED
deriving DecidableEq

/-- Payload of a `LOG` event.  The source formats strings; the claims only depend on
which log line is emitted, so the payload is kept symbolic: the Δ/status line of
source line 147, or the reset banner of source line 58. -/
inductive LogMsg
  | deltaMsg (delta : ℚ) (status : TickStatus)
  | resetMsg
deriving DecidableEq

/-- `StatsSnapshot` carried by a `STATS` event, source lines 197-203. -/
structure Stats where
  bph : ℚ
  rate_instant : ℚ
  rate_session : ℚ
  be : ℚ
  count : ℕ
deriving DecidableEq

/-- Result-queue events (source tags `TICK`, `LOG`, `STATS`, `RESET`). -/
inductive Event
  | TICK
  | LOG (m : LogMsg)
  | STATS (s : Stats)
  | RESET
deriving DecidableEq

/-- The mutable analyzer fields owned by the processing task
(source lines 31-42). -/
structure WatchState where
  agc_gain : ℚ
  threshold_percent : ℚ
  last_trigger_index : ℤ
  total_processed_samples : ℕ
  last_tick_time : ℚ
  intervals : List ℚ
  session_intervals : List ℚ
deriving DecidableEq

/-- Analyzer state after `__init__` / at stream start (source lines 31-42). -/
def initState : WatchState :=
  { agc_gain := 50
    threshold_percent := 40
    last_trigger_index := -999999
    total_processed_samples := 0
    last_tick_time := 0
    intervals := []
    session_intervals := [] }

/-- `reset_data` (source lines 50-58): zero the processing state, keep the
externally configured threshold, and emit `RESET` then the reset log line. -/
def resetData (st : WatchState) : WatchState × List Event :=
  ({ st with
      last_tick_time := 0
      intervals := []
      session_intervals := []
      agc_gain := 50
      total_processed_samples := 0
      last_trigger_index := -999999 },
   [Event.RESET, Event.LOG LogMsg.resetMsg])

/-- `np.max(np.abs(raw_data))` of source line 112 for a nonempty block.
(`np.abs` of the int16 value -32768 overflows back to -32768 in NumPy; this model
uses the true absolute value, and the AGC claims quantify over the resulting
chunk maxima, so the overflow corner does not affect any claim.) -/
def chunkMax (raw : List ℤ) : ℕ :=
  (raw.map Int.natAbs).foldl max 0

/-- The AGC step of source lines 112-116 as a function of the incoming block's
maximum absolute sample. -/
def agcUpdate (gain : ℚ) (cMax : ℕ) : ℚ :=
  if 0 < cMax then
    max 1 (min (gain * (98 / 100) + (target_peak / (cMax : ℚ)) * (2 / 100)) 300)
  else gain

/-- AGC gain after feeding a sequence of block maxima from the initial state. -/
def agcRun (ms : List ℕ) : ℚ :=
  ms.foldl agcUpdate initState.agc_gain

/-- Interval classification, source lines 143-145 (`0.09` and `2.2` are the float
literals, here exact rationals; both comparisons are strict). -/
def classifyDelta (delta : ℚ) : TickStatus :=
  if delta < 9 / 100 then TickStatus.NOISE
  else if 11 / 5 < delta then TickStatus.MISSED
  else TickStatus.OK

/-- `l[-n:]` in Python: the last `n` entries (all of them when fewer). -/
def takeLast (n : ℕ) (l : List ℚ) : List ℚ :=
  l.drop (l.length - n)

/-- `l[0::2]`: entries at even positions.  `l[1::2]` is `everyOther l.tail`. -/
def everyOther : List ℚ → List ℚ
  | [] => []
  | [x] => [x]
  | x :: _ :: rest => x :: everyOther rest

/-- `np.mean` of a list of rationals. -/
def listMean (l : List ℚ) : ℚ :=
  l.sum / (l.length : ℚ)

/-- `np.median`: middle entry of the sorted list, or the average of the two middle
entries for an even length. -/
def median (l : List ℚ) : ℚ :=
  let s := List.insertionSort (· ≤ ·) l
  if l.length % 2 = 1 then s.getD (l.length / 2) 0
  else (s.getD (l.length / 2 - 1) 0 + s.getD (l.length / 2) 0) / 2

/-- `np.cumsum`, threaded with the running total. -/
def cumsumFrom (acc : ℚ) : List ℚ → List ℚ
  | [] => []
  | x :: rest => (acc + x) :: cumsumFrom (acc + x) rest

/-- `np.cumsum` (source line 177). -/
def cumsum (l : List ℚ) : List ℚ :=
  cumsumFrom 0 l

/-- The slope of the degree-1 least-squares fit of `ys` against `x = 0, 1, ...`
(`np.polyfit(x_ticks, y_cumulative, 1)`, source lines 178-180):
`(n·Σxy - Σx·Σy) / (n·Σx² - (Σx)²)`. -/
def lsSlope (ys : List ℚ) : ℚ :=
  let n : ℚ := (ys.length : ℚ)
  let sx : ℚ := ∑ i in Finset.range ys.length, (i : ℚ)
  let sy : ℚ := ∑ i in Finset.range ys.length, ys.getD i 0
  let sxy : ℚ := ∑ i in Finset.range ys.length, (i : ℚ) * ys.getD i 0
  let sxx : ℚ := ∑ i in Finset.range ys.length, (i : ℚ) ^ 2
  (n * sxy - sx * sy) / (n * sxx - sx * sx)

/-- Python's `min(l, key=key)` for a nonempty list: fold keeping the current
minimum, replacing it only on a strictly smaller key, so the first minimizer in
list order wins ties.  (Python raises on an empty list; the only call site uses
the nonempty constant `STANDARD_BPH`, so the `[]` case is unreachable.) -/
def pyMin (key : ℚ → ℚ) : List ℚ → ℚ
  | [] => 0
  | x :: rest => rest.foldl (fun acc y => if key y < key acc then y else acc) x

/-- `min(STANDARD_BPH, key=lambda x: abs(x - measured_bph))`, source line 183. -/
def nearestStandardBph (measuredBph : ℚ) : ℚ :=
  pyMin (fun x => |x - measuredBph|) STANDARD_BPH

/-- Beat error of source lines 190-195. -/
def beatError (validData : List ℚ) : ℚ :=
  if 4 ≤ validData.length then
    let recentClean := takeLast 20 validData
    let evens := everyOther recentClean
    let odds := everyOther recentClean.tail
    if 0 < odds.length ∧ 0 < evens.length then
      |listMean evens - listMean odds| * 1000
    else 0
  else 0

/-- The `StatsSnapshot` computed by `_analyze_intervals` (source lines 169-203)
once both length guards have passed, from the rolling window and the settled
session history `valid_data = session_intervals[2:]`. -/
def statsOf (intervals validData : List ℚ) : Stats :=
  let avgInstant := if intervals.isEmpty then 1 else median intervals
  let slope := lsSlope (cumsum validData)
  let measuredBph := 3600 / slope
  let targetBph := nearestStandardBph measuredBph
  let targetInterval := 3600 / targetBph
  { bph := targetBph
    rate_instant := ((targetInterval - avgInstant) / targetInterval) * 86400
    rate_session := ((targetInterval - slope) / targetInterval) * 86400
    be := beatError validData
    count := validData.length }

/-- `_analyze_intervals` (source lines 166-203): `none` when a guard returns early
(line 167: fewer than 5 session intervals; line 175: fewer than 5 settled
intervals), otherwise the emitted `STATS` payload.  (`avg_instant` is computed
between the two guards in the source; it is pure, so hoisting it into `statsOf`
is behaviour-preserving.) -/
def analyzeIntervals (intervals session_intervals : List ℚ) : Option Stats :=
  if session_intervals.length < 5 then none
  else if (session_intervals.drop 2).length < 5 then none
  else some (statsOf intervals (session_intervals.drop 2))

/-- Tick time in seconds, source line 138: `global_idx / SAMPLE_RATE`. -/
def tickTime (g : ℕ) : ℚ :=
  (g : ℚ) / (SAMPLE_RATE : ℚ)

/-- `if len(self.intervals) > 10: self.intervals.pop(0)` (source line 152),
applied to the window right after the append of line 150. -/
def capWindow (l : List ℚ) : List ℚ :=
  if 10 < l.length then l.tail else l

/-- Events appended by `_analyze_intervals`: one `STATS` event when it produces a
snapshot, none when a guard returned early. -/
def statsEvents : Option Stats → List Event
  | some s => [Event.STATS s]
  | none => []

/-- The body of the detector's acceptance branch, source lines 134-155: record the
trigger index, emit `TICK`, and when a prior tick exists classify the delta, emit
the log line, append OK intervals (rolling window capped at 10 by `pop(0)`), and
run `_analyze_intervals`; `last_tick_time` is updated in every case. -/
def acceptTick (st : WatchState) (g : ℕ) : WatchState × List Event :=
  if 0 < st.last_tick_time then
    if classifyDelta (tickTime g - st.last_tick_time) = TickStatus.OK then
      ({ st with
          last_trigger_index := (g : ℤ)
          intervals := capWindow (st.intervals ++ [tickTime g - st.last_tick_time])
          session_intervals := st.session_intervals ++ [tickTime g - st.last_tick_time]
          last_tick_time := tickTime g },
       [Event.TICK,
        Event.LOG (LogMsg.deltaMsg (tickTime g - st.last_tick_time)
          (classifyDelta (tickTime g - st.last_tick_time)))] ++
        statsEvents
          (analyzeIntervals
            (capWindow (st.intervals ++ [tickTime g - st.last_tick_time]))
            (st.session_intervals ++ [tickTime g - st.last_tick_time])))
    else
      ({ st with last_trigger_index := (g : ℤ), last_tick_time := tickTime g },
       [Event.TICK,
        Event.LOG (LogMsg.deltaMsg (tickTime g - st.last_tick_time)
          (classifyDelta (tickTime g - st.last_tick_time)))])
  else
    ({ st with last_trigger_index := (g : ℤ), last_tick_time := tickTime g },
     [Event.TICK])

/-- The peak-detection scan of source lines 127-155 over the smoothed envelope:
`i` is the enumeration offset, the global index is `total_processed_samples + i`
(the counter itself only advances after the scan, line 157).  Besides the state
and the emitted events, the scan returns the global indices of the accepted
ticks, in acceptance order. -/
def scanSamples (thr : ℚ) : WatchState → ℕ → List ℚ → WatchState × List Event × List ℕ
  | st, _, [] => (st, [], [])
  | st, i, s :: rest =>
    let g := st.total_processed_samples + i
    if (g : ℤ) - st.last_trigger_index < (LOCKOUT_SAMPLES : ℤ) then
      scanSamples thr st (i + 1) rest
    else if thr < s then
      let a := acceptTick st g
      let r := scanSamples thr a.1 (i + 1) rest
      (r.1, a.2 ++ r.2.1, g :: r.2.2)
    else
      scanSamples thr st (i + 1) rest

/-- One iteration of the `_process_data` loop (source lines 111-157) on a dequeued
block: AGC on the raw block, detection scan over the smoothed envelope produced
by the filter chain, then `total_processed_samples += len(raw_data)`.
The threshold is `threshold_percent / 100 * 32768` (source line 125). -/
def processBlock (st : WatchState) (raw : List ℤ) (smoothed : List ℚ) :
    WatchState × List Event × List ℕ :=
  let st0 := { st with agc_gain := agcUpdate st.agc_gain (chunkMax raw) }
  let thr := st0.threshold_percent / 100 * 32768
  let r := scanSamples thr st0 0 smoothed
  ({ r.1 with total_processed_samples := r.1.total_processed_samples + raw.length },
   r.2.1, r.2.2)

/-- The `_process_data` loop over a sequence of (raw block, smoothed envelope)
pairs, concatenating events and accepted tick indices in order. -/
def runBlocks (st : WatchState) : List (List ℤ × List ℚ) → WatchState × List Event × List ℕ
  | [] => (st, [], [])
  | b :: bs =>
    let r1 := processBlock st b.1 b.2
    let r2 := runBlocks r1.1 bs
    (r2.1, r1.2.1 ++ r2.2.1, r1.2.2 ++ r2.2.2)

/-- The one processing error reachable inside the loop body that the claims
exercise: source line 112 evaluates `np.max(np.abs(raw_data))`, and NumPy's
`max` raises `ValueError` on a zero-size array. -/
inductive ProcErr
  | emptyBlockMax
deriving DecidableEq

/-- Fallible variant of `processBlock`.  The `try/except` of source lines 107-109
only catches `queue.Empty` around the dequeue; the block-processing body of
lines 111-157 runs unguarded, so an exception raised there propagates. -/
def processBlockE (st : WatchState) (raw : List ℤ) (smoothed : List ℚ) :
    Except ProcErr (WatchState × List Event × List ℕ) :=
  match raw with
  | [] => Except.error ProcErr.emptyBlockMax
  | _ => Except.ok (processBlock st raw smoothed)

/-- The `while self.running` loop (source lines 106-157) with exception
propagation: an uncaught exception in the body terminates the processing
thread, so the remaining queued blocks are never processed and none of their
events are emitted. -/
def runBlocksE (st : WatchState) :
    List (List ℤ × List ℚ) → Except ProcErr (WatchState × List Event × List ℕ)
  | [] => Except.ok (st, [], [])
  | b :: bs =>
    match processBlockE st b.1 b.2 with
    | Except.error e => Except.error e
    | Except.ok r1 =>
      match runBlocksE r1.1 bs with
      | Except.error e => Except.error e
      | Except.ok r2 => Except.ok (r2.1, r1.2.1 ++ r2.2.1, r1.2.2 ++ r2.2.2)

/-- Separation required between accepted tick indices. -/
def tickSep (a b : ℤ) : Prop :=
  a + (LOCKOUT_SAMPLES : ℤ) ≤ b

/-- All `TICK` events stand before every other event of the list. -/
def ticksLeadEvents (evs : List Event) : Prop :=
  ∃ t r, evs = t ++ r ∧ (∀ e ∈ t, e = Event.TICK) ∧ ∀ e ∈ r, e ≠ Event.TICK

/-! ### Theorems -/

/-- C2: with a prior tick, the delta is classified `NOISE` iff `delta < 0.09`,
`MISSED` iff `delta > 2.2`, and `OK` otherwise; both comparisons are strict, so
a delta of exactly 0.09 s and one of exactly 2.2 s are classified `OK`. -/
theorem classify_boundaries (d : ℚ) :
    (classifyDelta d = TickStatus.NOISE ↔ d < 9 / 100) ∧
    (classifyDelta d = TickStatus.MISSED ↔ 11 / 5 < d) ∧
    (classifyDelta d = TickStatus.OK ↔ 9 / 100 ≤ d ∧ d ≤ 11 / 5) ∧
    classifyDelta (9 / 100) = TickStatus.OK ∧
    classifyDelta (11 / 5) = TickStatus.OK := by
  refine ⟨?_, ?_, ?_, by norm_num [classifyDelta], by norm_num [classifyDelta]⟩
  all_goals unfold classifyDelta
  all_goals split_ifs with h1 h2 <;> simp_all <;> linarith

lemma agcUpdate_bounds (g : ℚ) (m : ℕ) (h1 : 1 ≤ g) (h2 : g ≤ 300) :
    1 ≤ agcUpdate g m ∧ agcUpdate g m ≤ 300 := by
  unfold agcUpdate
  split
  · exact ⟨le_max_left _ _, max_le (by norm_num) (min_le_right _ _)⟩
  · exact ⟨h1, h2⟩

lemma agcFoldl_bounds :
    ∀ (ms : List ℕ) (g : ℚ), 1 ≤ g → g ≤ 300 →
      1 ≤ List.foldl agcUpdate g ms ∧ List.foldl agcUpdate g ms ≤ 300
  | [], _, h1, h2 => ⟨h1, h2⟩
  | m :: ms, g, h1, h2 => by
    have h := agcUpdate_bounds g m h1 h2
    simpa using agcFoldl_bounds ms (agcUpdate g m) h.1 h.2

/-- C3: for every sequence of non-negative chunk maxima (silence included), the
AGC gain stays within `[1, 300]` after each block; a positive maximum updates the
gain to the clamped exponential moving average and a zero maximum leaves it
unchanged. -/
theorem agc_gain_invariant (ms : List ℕ) :
    (1 ≤ agcRun ms ∧ agcRun ms ≤ 300) ∧
    (∀ g : ℚ, agcUpdate g 0 = g) ∧
    (∀ (g : ℚ) (m : ℕ), 0 < m →
      agcUpdate g m =
        max 1 (min (g * (98 / 100) + ((20000 : ℚ) / (m : ℚ)) * (2 / 100)) 300)) := by
  refine ⟨agcFoldl_bounds ms initState.agc_gain (by norm_num [initState]) (by norm_num [initState]),
    fun g => by simp [agcUpdate], fun g m hm => ?_⟩
  unfold agcUpdate target_peak
  rw [if_pos hm]

/-- C7: `reset_data` is idempotent on the analyzer state — a second call leaves
the zeroed state fixed — every cleared field has its documented value, and each
call emits a `RESET` event followed by the reset `LOG` line. -/
theorem reset_idempotent (st : WatchState) :
    (resetData (resetData st).1).1 = (resetData st).1 ∧
    (resetData st).1.intervals = [] ∧
    (resetData st).1.session_intervals = [] ∧
    (resetData st).1.last_tick_time = 0 ∧
    (resetData st).1.total_processed_samples = 0 ∧
    (resetData st).1.last_trigger_index = -999999 ∧
    (resetData st).1.agc_gain = 50 ∧
    (resetData st).2 = [Event.RESET, Event.LOG LogMsg.resetMsg] ∧
    (resetData (resetData st).1).2 = [Event.RESET, Event.LOG LogMsg.resetMsg] := by
  cases st
  exact ⟨rfl, rfl, rfl, rfl, rfl, rfl, rfl, rfl, rfl⟩

lemma abs_sub_of_le (x y : ℚ) (h : x ≤ y) : |x - y| = y - x := by
  rw [abs_sub_comm, abs_of_nonneg (by linarith)]

lemma abs_sub_of_ge (x y : ℚ) (h : y ≤ x) : |x - y| = x - y :=
  abs_of_nonneg (by linarith)

/-- C10: at the exact midpoint of each pair of adjacent standard BPH values the
nearest-rate selection returns the lower of the two, because `min` over the
ascending `STANDARD_BPH` list keeps the first minimizer on a tied key. -/
theorem bph_tie_break_low :
    nearestStandardBph ((3600 + 7200) / 2) = 3600 ∧
    nearestStandardBph ((7200 + 14400) / 2) = 7200 ∧
    nearestStandardBph ((14400 + 18000) / 2) = 14400 ∧
    nearestStandardBph ((18000 + 19800) / 2) = 18000 ∧
    nearestStandardBph ((19800 + 21600) / 2) = 19800 ∧
    nearestStandardBph ((21600 + 25200) / 2) = 21600 ∧
    nearestStandardBph ((25200 + 28800) / 2) = 25200 ∧
    nearestStandardBph ((28800 + 36000) / 2) = 28800 := by
  refine ⟨?_, ?_, ?_, ?_, ?_, ?_, ?_, ?_⟩ <;>
    norm_num [nearestStandardBph, pyMin, STANDARD_BPH, abs_sub_of_le, abs_sub_of_ge]

/-- C5: a `STATS` payload is produced only when the session history holds at
least 5 intervals and at least 5 remain after discarding its first 2 entries,
and its `count` field is the length of that settled history. -/
theorem stats_emission_guards (ints sess : List ℚ) (st : Stats)
    (h : analyzeIntervals ints sess = some st) :
    5 ≤ sess.length ∧ 5 ≤ (sess.drop 2).length ∧ st.count = (sess.drop 2).length := by
  unfold analyzeIntervals at h
  split at h
  · exact absurd h (by simp)
  · split at h
    · exact absurd h (by simp)
    · rename_i h1 h2
      have hst := Option.some.inj h
      refine ⟨by omega, by omega, ?_⟩
      rw [← hst]
      simp [statsOf]

lemma capWindow_eq_takeLast (l : List ℚ) (h : l.length ≤ 11) :
    capWindow l = takeLast 10 l := by
  unfold capWindow takeLast
  by_cases h10 : 10 < l.length
  · rw [if_pos h10]
    have h1 : l.length - 10 = 1 := by omega
    rw [h1, List.drop_one]
  · rw [if_neg h10]
    have h0 : l.length - 10 = 0 := by omega
    rw [h0, List.drop_zero]

/-- C6: on an accepted tick with a prior tick, `last_tick_time` is updated to the
new tick time whatever the classification; a non-`OK` delta changes neither the
rolling window nor the session history; an `OK` delta is appended to the session
history and the rolling window keeps only the last 10 entries (FIFO). -/
theorem ok_interval_recording (st : WatchState) (g : ℕ) (h : 0 < st.last_tick_time) :
    (acceptTick st g).1.last_tick_time = tickTime g ∧
    (classifyDelta (tickTime g - st.last_tick_time) ≠ TickStatus.OK →
      (acceptTick st g).1.intervals = st.intervals ∧
      (acceptTick st g).1.session_intervals = st.session_intervals) ∧
    (classifyDelta (tickTime g - st.last_tick_time) = TickStatus.OK →
      (acceptTick st g).1.session_intervals
          = st.session_intervals ++ [tickTime g - st.last_tick_time] ∧
      (st.intervals.length ≤ 10 →
        (acceptTick st g).1.intervals
            = takeLast 10 (st.intervals ++ [tickTime g - st.last_tick_time]))) := by
  unfold acceptTick
  rw [if_pos h]
  by_cases hok : classifyDelta (tickTime g - st.last_tick_time) = TickStatus.OK
  · rw [if_pos hok]
    refine ⟨rfl, fun hne => absurd hok hne, fun _ => ⟨rfl, fun hlen => ?_⟩⟩
    have hl : (st.intervals ++ [tickTime g - st.last_tick_time]).length ≤ 11 := by
      simp only [List.length_append, List.length_singleton]
      omega
    exact capWindow_eq_takeLast _ hl
  · rw [if_neg hok]
    exact ⟨rfl, fun _ => ⟨rfl, rfl⟩, fun hc => absurd hc hok⟩

/-- C9 (divergence witness): a zero-length block makes the loop body raise at
`np.max` on source line 112, outside the `try/except` that only catches
`queue.Empty`; the processing task terminates, so a well-formed block queued
after it is never processed, while the same well-formed block alone is processed
normally — the error is not contained to the offending block. -/
theorem empty_block_kills_task :
    runBlocksE initState [([], [40000])] = Except.error ProcErr.emptyBlockMax ∧
    runBlocksE initState [([], [40000]), ([5], [0])] = Except.error ProcErr.emptyBlockMax ∧
    ∃ r, runBlocksE initState [([5], [0])] = Except.ok r :=
  ⟨rfl, rfl, ⟨_, rfl⟩⟩

lemma sum_range_cast (m : ℕ) :
    (∑ i in Finset.range m, (i : ℚ)) = m * (m - 1) / 2 := by
  induction m with
  | zero => norm_num
  | succ n ih =>
    rw [Finset.sum_range_succ, ih]
    push_cast
    ring

lemma sum_range_sq_cast (m : ℕ) :
    (∑ i in Finset.range m, (i : ℚ) ^ 2) = m * (m - 1) * (2 * m - 1) / 6 := by
  induction m with
  | zero => norm_num
  | succ n ih =>
    rw [Finset.sum_range_succ, ih]
    push_cast
    ring

/-- The denominator of the least-squares slope over `x = 0, ..., m-1` is positive
once there are at least two points. -/
lemma lsDen_pos (m : ℕ) (hm : 2 ≤ m) :
    0 < (m : ℚ) * (∑ i in Finset.range m, (i : ℚ) ^ 2) -
        (∑ i in Finset.range m, (i : ℚ)) * (∑ i in Finset.range m, (i : ℚ)) := by
  rw [sum_range_cast, sum_range_sq_cast]
  have h2 : (2 : ℚ) ≤ (m : ℚ) := by exact_mod_cast hm
  have key : (m : ℚ) * ((m : ℚ) * ((m : ℚ) - 1) * (2 * (m : ℚ) - 1) / 6) -
      ((m : ℚ) * ((m : ℚ) - 1) / 2) * ((m : ℚ) * ((m : ℚ) - 1) / 2) =
      (m : ℚ) ^ 2 * ((m : ℚ) - 1) * ((m : ℚ) + 1) / 12 := by ring
  rw [key]
  apply div_pos
  · exact mul_pos (mul_pos (pow_pos (by linarith) 2) (by linarith)) (by linarith)
  · norm_num

lemma cumsumFrom_length (l : List ℚ) : ∀ a, (cumsumFrom a l).length = l.length := by
  induction l with
  | nil => intro a; rfl
  | cons x xs ih => intro a; simp [cumsumFrom, ih]

lemma cumsumFrom_replicate_getD :
    ∀ (m i : ℕ) (a c : ℚ), i < m →
      (cumsumFrom a (List.replicate m c)).getD i 0 = a + c * ((i : ℚ) + 1)
  | 0, i, _, _, h => absurd h (Nat.not_lt_zero i)
  | m + 1, 0, a, c, _ => by
    simp [List.replicate_succ, cumsumFrom]
  | m + 1, i + 1, a, c, h => by
    have hi : i < m := by omega
    have ih := cumsumFrom_replicate_getD m i (a + c) c hi
    simp only [List.replicate_succ, cumsumFrom, List.getD_cons_succ, ih]
    push_cast
    ring

lemma dropReplicate (c : ℚ) : ∀ (n m : ℕ),
    (List.replicate m c).drop n = List.replicate (m - n) c
  | 0, m => by simp
  | n + 1, 0 => by simp
  | n + 1, m + 1 => by
    simp [List.replicate_succ, dropReplicate c n m]

/-- The least-squares slope of the cumulative sums of `m ≥ 2` equal intervals is
exactly that common interval. -/
lemma lsSlope_cumsum_replicate (m : ℕ) (c : ℚ) (hm : 2 ≤ m) :
    lsSlope (cumsum (List.replicate m c)) = c := by
  have hlen : (cumsum (List.replicate m c)).length = m := by
    simp [cumsum, cumsumFrom_length]
  have hget : ∀ i ∈ Finset.range m,
      (cumsum (List.replicate m c)).getD i 0 = c * ((i : ℚ) + 1) := by
    intro i hi
    have h := cumsumFrom_replicate_getD m i 0 c (Finset.mem_range.mp hi)
    simpa [cumsum] using h
  have hsy : (∑ i in Finset.range m, (cumsum (List.replicate m c)).getD i 0) =
      c * (∑ i in Finset.range m, (i : ℚ)) + c * m := by
    rw [Finset.sum_congr rfl hget]
    rw [Finset.sum_congr rfl
      (fun i _ => by ring : ∀ i ∈ Finset.range m, c * ((i : ℚ) + 1) = c * (i : ℚ) + c)]
    rw [Finset.sum_add_distrib, ← Finset.mul_sum, Finset.sum_const, Finset.card_range,
      nsmul_eq_mul]
    ring
  have hsxy : (∑ i in Finset.range m, (i : ℚ) * (cumsum (List.replicate m c)).getD i 0) =
      c * (∑ i in Finset.range m, (i : ℚ) ^ 2) + c * (∑ i in Finset.range m, (i : ℚ)) := by
    rw [Finset.sum_congr rfl
      (fun i hi => by rw [hget i hi]; ring :
        ∀ i ∈ Finset.range m,
          (i : ℚ) * (cumsum (List.replicate m c)).getD i 0 = c * (i : ℚ) ^ 2 + c * (i : ℚ))]
    rw [Finset.sum_add_distrib, ← Finset.mul_sum, ← Finset.mul_sum]
  have hden := lsDen_pos m hm
  simp only [lsSlope, hlen, hsy, hsxy]
  have hnum : (m : ℚ) * (c * (∑ i in Finset.range m, (i : ℚ) ^ 2) +
      c * (∑ i in Finset.range m, (i : ℚ))) -
      (∑ i in Finset.range m, (i : ℚ)) * (c * (∑ i in Finset.range m, (i : ℚ)) + c * m) =
      c * ((m : ℚ) * (∑ i in Finset.range m, (i : ℚ) ^ 2) -
        (∑ i in Finset.range m, (i : ℚ)) * (∑ i in Finset.range m, (i : ℚ))) := by
    ring
  rw [hnum, mul_div_assoc, div_self (ne_of_gt hden), mul_one]

lemma nearest_21600 : nearestStandardBph 21600 = 21600 := by
  norm_num [nearestStandardBph, pyMin, STANDARD_BPH, abs_sub_of_le, abs_sub_of_ge]

/-- C4: for a session whose recorded OK intervals all equal `3600 / 21600`
seconds, whenever the estimator emits a snapshot it selects `targetBph = 21600`
and computes a session rate of exactly 0 (exact arithmetic). -/
theorem periodic_train_rate (ints : List ℚ) (k : ℕ) (st : Stats)
    (h : analyzeIntervals ints (List.replicate k (3600 / 21600)) = some st) :
    st.bph = 21600 ∧ st.rate_session = 0 := by
  unfold analyzeIntervals at h
  split at h
  · exact absurd h (by simp)
  · split at h
    · exact absurd h (by simp)
    · rename_i h1 h2
      have hst := Option.some.inj h
      rw [dropReplicate] at hst h2
      have hm5 : 5 ≤ k - 2 := by
        simp only [List.length_replicate, not_lt] at h2
        omega
      have hslope := lsSlope_cumsum_replicate (k - 2) (3600 / 21600) (by omega)
      have hmeas : (3600 : ℚ) / (3600 / 21600) = 21600 := by norm_num
      rw [← hst]
      constructor
      · simp only [statsOf, hslope, hmeas, nearest_21600]
      · simp only [statsOf, hslope, hmeas, nearest_21600]
        norm_num

lemma acceptTick_fst_fields (st : WatchState) (g : ℕ) :
    (acceptTick st g).1.last_trigger_index = (g : ℤ) ∧
    (acceptTick st g).1.total_processed_samples = st.total_processed_samples := by
  unfold acceptTick
  split_ifs <;> exact ⟨rfl, rfl⟩

lemma statsEvents_no_tick (o : Option Stats) : ∀ e ∈ statsEvents o, e ≠ Event.TICK := by
  cases o <;> simp [statsEvents]

lemma acceptTick_events (st : WatchState) (g : ℕ) :
    ∃ rest, (acceptTick st g).2 = Event.TICK :: rest ∧ ∀ e ∈ rest, e ≠ Event.TICK := by
  unfold acceptTick
  split_ifs
  · refine ⟨_, rfl, fun e he => ?_⟩
    rcases List.mem_cons.mp he with rfl | he2
    · simp
    · exact statsEvents_no_tick _ e he2
  · exact ⟨_, rfl, fun e he => by simp at he; simp [he]⟩
  · exact ⟨[], rfl, fun e he => by simp at he⟩

lemma scanSamples_spec (thr : ℚ) :
    ∀ (l : List ℚ) (st : WatchState) (i : ℕ),
      (scanSamples thr st i l).1.total_processed_samples = st.total_processed_samples ∧
      List.Chain' tickSep
        (st.last_trigger_index :: ((scanSamples thr st i l).2.2.map (fun n : ℕ => (n : ℤ)))) ∧
      (scanSamples thr st i l).1.last_trigger_index =
        ((scanSamples thr st i l).2.2.map (fun n : ℕ => (n : ℤ))).getLastD st.last_trigger_index := by
  intro l
  induction l with
  | nil => exact fun st i => ⟨rfl, List.chain'_singleton _, rfl⟩
  | cons s rest ih =>
    intro st i
    by_cases hskip :
        ((st.total_processed_samples + i : ℕ) : ℤ) - st.last_trigger_index <
          (LOCKOUT_SAMPLES : ℤ)
    · simpa only [scanSamples, if_pos hskip] using ih st (i + 1)
    · by_cases htr : thr < s
      · simp only [scanSamples, if_neg hskip, if_pos htr]
        obtain ⟨ht1, ht2⟩ := acceptTick_fst_fields st (st.total_processed_samples + i)
        obtain ⟨htot, hchain, hlast⟩ :=
          ih (acceptTick st (st.total_processed_samples + i)).1 (i + 1)
        refine ⟨by rw [htot, ht2], ?_, ?_⟩
        · rw [List.map_cons]
          refine List.chain'_cons.mpr ⟨?_, ?_⟩
          · unfold tickSep
            omega
          · rw [← ht1]
            exact hchain
        · rw [hlast, ht1, List.map_cons, List.getLastD_cons]
      · simpa only [scanSamples, if_neg hskip, if_neg htr] using ih st (i + 1)

lemma chain_glue {R : ℤ → ℤ → Prop} :
    ∀ (A B : List ℤ) (lt : ℤ),
      List.Chain' R (lt :: A) → List.Chain' R (A.getLastD lt :: B) →
      List.Chain' R (lt :: (A ++ B))
  | [], _, _, _, h2 => h2
  | a :: A', B, lt, h1, h2 => by
    rcases List.chain'_cons.mp h1 with ⟨hR, h1'⟩
    have h2' : List.Chain' R (A'.getLastD a :: B) := by
      rwa [List.getLastD_cons] at h2
    exact List.chain'_cons.mpr ⟨hR, chain_glue A' B a h1' h2'⟩

lemma getLastD_append (A B : List ℤ) (d : ℤ) :
    (A ++ B).getLastD d = B.getLastD (A.getLastD d) := by
  induction A generalizing d with
  | nil => rfl
  | cons a A' ih =>
    rw [List.cons_append, List.getLastD_cons, List.getLastD_cons]
    exact ih a

lemma processBlock_spec (st : WatchState) (raw : List ℤ) (smoothed : List ℚ) :
    List.Chain' tickSep
      (st.last_trigger_index :: ((processBlock st raw smoothed).2.2.map (fun n : ℕ => (n : ℤ)))) ∧
    (processBlock st raw smoothed).1.last_trigger_index =
      ((processBlock st raw smoothed).2.2.map (fun n : ℕ => (n : ℤ))).getLastD
        st.last_trigger_index := by
  obtain ⟨_, hchain, hlast⟩ :=
    scanSamples_spec ((({ st with agc_gain := agcUpdate st.agc_gain (chunkMax raw) } :
      WatchState).threshold_percent) / 100 * 32768)
      smoothed { st with agc_gain := agcUpdate st.agc_gain (chunkMax raw) } 0
  exact ⟨hchain, hlast⟩

lemma runBlocks_spec :
    ∀ (blocks : List (List ℤ × List ℚ)) (st : WatchState),
      List.Chain' tickSep
        (st.last_trigger_index :: ((runBlocks st blocks).2.2.map (fun n : ℕ => (n : ℤ)))) ∧
      (runBlocks st blocks).1.last_trigger_index =
        ((runBlocks st blocks).2.2.map (fun n : ℕ => (n : ℤ))).getLastD st.last_trigger_index
  | [], _ => ⟨List.chain'_singleton _, rfl⟩
  | b :: bs, st => by
    obtain ⟨hc1, hl1⟩ := processBlock_spec st b.1 b.2
    obtain ⟨hc2, hl2⟩ := runBlocks_spec bs (processBlock st b.1 b.2).1
    simp only [runBlocks]
    constructor
    · rw [List.map_append]
      exact chain_glue _ _ _ hc1 (by rw [hl1] at hc2; exact hc2)
    · rw [List.map_append, getLastD_append, ← hl1]
      exact hl2

instance : IsTrans ℤ tickSep :=
  ⟨fun _ _ _ hab hbc => by unfold tickSep at hab hbc ⊢; omega⟩

/-- C1: over any run of processed blocks and any envelopes, the global sample
indices of accepted ticks are pairwise separated by at least
`LOCKOUT_SAMPLES` (80 ms at 44100 Hz): an index within the lockout distance of
the last accepted tick is skipped, never accepted. -/
theorem lockout_separation (st : WatchState) (blocks : List (List ℤ × List ℚ)) :
    List.Pairwise (fun a b : ℕ => a + LOCKOUT_SAMPLES ≤ b) (runBlocks st blocks).2.2 := by
  obtain ⟨hc, _⟩ := runBlocks_spec blocks st
  have hp := List.chain'_iff_pairwise.mp hc
  have hp2 := (List.pairwise_cons.mp hp).2
  rw [List.pairwise_map] at hp2
  exact hp2.imp fun h => by unfold tickSep at h; omega

lemma scanSamples_locked (thr : ℚ) :
    ∀ (l : List ℚ) (st : WatchState) (i : ℕ),
      ((st.total_processed_samples + i + l.length : ℕ) : ℤ) ≤
          st.last_trigger_index + (LOCKOUT_SAMPLES : ℤ) →
      scanSamples thr st i l = (st, [], [])
  | [], _, _, _ => rfl
  | s :: rest, st, i, h => by
    simp only [List.length_cons] at h
    have hskip : ((st.total_processed_samples + i : ℕ) : ℤ) - st.last_trigger_index <
        (LOCKOUT_SAMPLES : ℤ) := by omega
    simp only [scanSamples, if_pos hskip]
    exact scanSamples_locked thr rest st (i + 1) (by omega)

lemma scanSamples_ticksLead (thr : ℚ) :
    ∀ (l : List ℚ) (st : WatchState) (i : ℕ),
      i + l.length ≤ LOCKOUT_SAMPLES →
      ticksLeadEvents (scanSamples thr st i l).2.1
  | [], _, _, _ => ⟨[], [], rfl, by simp, by simp⟩
  | s :: rest, st, i, h => by
    have hrec : (i + 1) + rest.length ≤ LOCKOUT_SAMPLES := by
      simp only [List.length_cons] at h
      omega
    by_cases hskip : ((st.total_processed_samples + i : ℕ) : ℤ) - st.last_trigger_index <
        (LOCKOUT_SAMPLES : ℤ)
    · simp only [scanSamples, if_pos hskip]
      exact scanSamples_ticksLead thr rest st (i + 1) hrec
    · by_cases htr : thr < s
      · simp only [scanSamples, if_neg hskip, if_pos htr]
        have ha := acceptTick_fst_fields st (st.total_processed_samples + i)
        have hlock :
            scanSamples thr (acceptTick st (st.total_processed_samples + i)).1 (i + 1) rest =
              ((acceptTick st (st.total_processed_samples + i)).1, [], []) := by
          apply scanSamples_locked
          rw [ha.1, ha.2]
          simp only [List.length_cons] at h
          omega
        rw [hlock]
        obtain ⟨restEv, hev, hnt⟩ := acceptTick_events st (st.total_processed_samples + i)
        exact ⟨[Event.TICK], restEv, by simp [hev], by simp, hnt⟩
      · simp only [scanSamples, if_neg hskip, if_neg htr]
        exact scanSamples_ticksLead thr rest st (i + 1) hrec

/-- C8: for every processed block whose envelope is no longer than the lockout
distance — which holds for the stream's fixed `CHUNK_SIZE = 2048 ≤ 3528` blocks —
every `TICK` event produced while scanning the block precedes all of the block's
other (`LOG`/`STATS`) events, because the lockout admits at most one accepted
tick per such block and each acceptance emits `TICK` first. -/
theorem tick_before_block_stats_log (st : WatchState) (raw : List ℤ) (smoothed : List ℚ)
    (h : smoothed.length ≤ LOCKOUT_SAMPLES) :
    CHUNK_SIZE ≤ LOCKOUT_SAMPLES ∧
    ticksLeadEvents (processBlock st raw smoothed).2.1 := by
  refine ⟨by norm_num [CHUNK_SIZE, LOCKOUT_SAMPLES, LOCKOUT_MS], ?_⟩
  simp only [processBlock]
  exact scanSamples_ticksLead _ smoothed _ 0 (by omega)

/-! ### Concrete witnesses -/

/-- A concrete analyzer state with a prior tick at 0.5 s, used to instantiate the
hypothesis-carrying theorems. -/
def wSt : WatchState :=
  { agc_gain := 50
    threshold_percent := 40
    last_trigger_index := -999999
    total_processed_samples := 44100
    last_tick_time := 1 / 2
    intervals := []
    session_intervals := [] }

theorem agc_gain_invariant_witness :
    (1 ≤ agcRun [0, 5] ∧ agcRun [0, 5] ≤ 300) ∧
    agcUpdate 50 0 = 50 ∧
    agcUpdate 50 5 =
      max 1 (min (50 * (98 / 100) + ((20000 : ℚ) / ((5 : ℕ) : ℚ)) * (2 / 100)) 300) := by
  have h := agc_gain_invariant [0, 5]
  exact ⟨h.1, h.2.1 50, h.2.2 50 5 (by norm_num)⟩

theorem periodic_train_rate_witness :
    Stats.bph ⟨21600, -432000, 0, 0, 5⟩ = 21600 ∧
    Stats.rate_session ⟨21600, -432000, 0, 0, 5⟩ = 0 :=
  periodic_train_rate [] 7 ⟨21600, -432000, 0, 0, 5⟩ (by
    norm_num [analyzeIntervals, statsOf, lsSlope, cumsum, cumsumFrom, nearestStandardBph,
      pyMin, STANDARD_BPH, beatError, takeLast, everyOther, listMean, List.replicate,
      Finset.sum_range_succ, Finset.sum_range_zero, abs_sub_of_le, abs_sub_of_ge,
      Stats.mk.injEq])

theorem stats_emission_guards_witness :
    5 ≤ (List.replicate 8 ((1 : ℚ) / 5)).length ∧
    5 ≤ ((List.replicate 8 ((1 : ℚ) / 5)).drop 2).length ∧
    Stats.count ⟨18000, -345600, 0, 0, 6⟩ = ((List.replicate 8 ((1 : ℚ) / 5)).drop 2).length :=
  stats_emission_guards [] (List.replicate 8 ((1 : ℚ) / 5)) ⟨18000, -345600, 0, 0, 6⟩ (by
    norm_num [analyzeIntervals, statsOf, lsSlope, cumsum, cumsumFrom, nearestStandardBph,
      pyMin, STANDARD_BPH, beatError, takeLast, everyOther, listMean, List.replicate,
      Finset.sum_range_succ, Finset.sum_range_zero, abs_sub_of_le, abs_sub_of_ge,
      Stats.mk.injEq])

theorem ok_interval_recording_witness :
    (acceptTick wSt 44100).1.last_tick_time = tickTime 44100 ∧
    (classifyDelta (tickTime 44100 - wSt.last_tick_time) ≠ TickStatus.OK →
      (acceptTick wSt 44100).1.intervals = wSt.intervals ∧
      (acceptTick wSt 44100).1.session_intervals = wSt.session_intervals) ∧
    (classifyDelta (tickTime 44100 - wSt.last_tick_time) = TickStatus.OK →
      (acceptTick wSt 44100).1.session_intervals
          = wSt.session_intervals ++ [tickTime 44100 - wSt.last_tick_time] ∧
      (wSt.intervals.length ≤ 10 →
        (acceptTick wSt 44100).1.intervals
            = takeLast 10 (wSt.intervals ++ [tickTime 44100 - wSt.last_tick_time]))) :=
  ok_interval_recording wSt 44100 (by norm_num [wSt])

theorem tick_before_block_stats_log_witness :
    CHUNK_SIZE ≤ LOCKOUT_SAMPLES ∧
    ticksLeadEvents (processBlock wSt [100] [20000]).2.1 :=
  tick_before_block_stats_log wSt [100] [20000]
    (by norm_num [LOCKOUT_SAMPLES, LOCKOUT_MS])

end PyTimeGrapher
